import Mathlib

/-!
Shallow embedding of `yaorust` (`src/main.rs`), a yaourt-style AUR/repo
helper, together with proofs about its package-resolution and
build/install pipeline.

Modelling conventions:
* The filesystem is a finite set of path strings (`List String`);
  `fs.contains p` models `Path::exists`.  `fs::remove_file` is modelled as
  removing the path (the code ignores removal errors via `let _ = ...`;
  the model assumes removal succeeds).  `fs::rename` removes the source
  path and adds the destination path.
* External processes are modelled by their observable exit status
  (`ExitStatus`), and every externally visible action is recorded in an
  event trace (`List Ev`).
* Network lookups and downloads are driven by oracles (`SyncWorld`,
  `DlWorld`) describing what the remote endpoints would answer.
-/

namespace Yaorust

/-- Exit status of a spawned child process: either a normal exit with a
code (`status.code() = Some c` in Rust) or termination without a code
(signal; `status.code() = None`).  `status.success()` is `exited 0`. -/
inductive ExitStatus where
  | exited (code : Nat)
  | signaled
  deriving Repr, DecidableEq

/-- Error cases surfaced by `bail!` in `main.rs`.  Note that the source
has no `NoArtifactsProduced` error: the constructors below are exactly
the failure points present in the code. -/
inductive Err where
  | noPkgs
  | notFound (name : String)
  | rpcFailed (name : String)
  | noPkgsFound
  | downloadFailed (name : String)
  | extractFailed (name : String)
  | snapshotLayout (name : String)
  | emptyPackagelist (name : String)
  | commandFailed (code : Option Nat)
  | toolMissing (name : String)
  deriving Repr, DecidableEq

instance {ε α : Type} [DecidableEq ε] [DecidableEq α] : DecidableEq (Except ε α)
  | .error e, .error f =>
    if h : e = f then .isTrue (by rw [h]) else .isFalse (by intro hc; cases hc; exact h rfl)
  | .error _, .ok _ => .isFalse (by intro hc; cases hc)
  | .ok _, .error _ => .isFalse (by intro hc; cases hc)
  | .ok a, .ok b =>
    if h : a = b then .isTrue (by rw [h]) else .isFalse (by intro hc; cases hc; exact h rfl)

/-- Package kind decided by `classify_pkg` (`enum PkgKind { Repo, Aur }`). -/
inductive PkgKind where
  | repo
  | aur
  deriving Repr, DecidableEq

/-- Observable events of one invocation, in execution order. -/
inductive Ev where
  /-- `pacman -Si -- name` availability probe. -/
  | repoProbe (name : String)
  /-- `pacman -Qi -- name` installed probe. -/
  | installedProbe (name : String)
  /-- AUR RPC `type=info` HTTP request for `name` (a source-build network call). -/
  | aurLookup (name : String)
  /-- The `:: Proceed with installation? [Y/n]` prompt. -/
  | promptConfirm
  /-- One `pacman -S pkgs…` invocation (repo install). -/
  | installRepo (pkgs : List String)
  /-- Start of the AUR pipeline for `name` (`==> [aur] building name`). -/
  | buildInstall (name : String)
  /-- The `:: View PKGBUILD? [Y/n]` prompt. -/
  | promptView
  /-- Spawn of the editor on the PKGBUILD. -/
  | editorRun
  /-- `makepkg --packagelist` dry-run invocation. -/
  | packagelist
  /-- `fs::remove_file p` (force handling). -/
  | removeFile (p : String)
  /-- The `makepkg` build invocation. -/
  | buildRun
  /-- `fs::rename src dst` relocating a workspace artifact. -/
  | relocate (src dst : String)
  /-- One `pacman -U paths…` invocation (install from files). -/
  | installFiles (paths : List String)
  deriving Repr, DecidableEq

/- ---------------------- prompt (main.rs lines 573-586) ---------------------- -/

/-- Whitespace trim of both ends, modelling Rust `str::trim` (written over
the character list so that it evaluates by kernel reduction). -/
def trimStr (s : String) : String :=
  String.mk (((s.data.dropWhile Char.isWhitespace).reverse.dropWhile
    Char.isWhitespace).reverse)

/-- Character-wise lowercasing, modelling Rust `str::to_lowercase` on the
ASCII inputs the prompt distinguishes. -/
def toLowerStr (s : String) : String :=
  String.mk (s.data.map Char.toLower)

/-- Embedding of `prompt_yes_no`: one line is read from stdin, trimmed and
lowercased; the function returns `true` (proceed) iff the result is empty,
`"y"` or `"yes"`.  Anything else returns `false` — there is no loop in the
source. -/
def prompt_yes_no (input : String) : Bool :=
  let answer := toLowerStr (trimStr input)
  answer == "" || answer == "y" || answer == "yes"

/-- Possible outcomes of a confirmation prompt, used to compare the code
with the spec's claimed behaviour. -/
inductive PromptOutcome where
  | proceed
  | abort
  | reprompt
  deriving Repr, DecidableEq

/-- Outcome of the prompt as the code implements it: a single read that
always decides, never re-prompts. -/
def promptOutcomeCode (input : String) : PromptOutcome :=
  if prompt_yes_no input then .proceed else .abort

/-- Modelled from the spec (claim C2's wording): proceed on empty/"y"/"yes",
abort on "n"/"no", and re-prompt on any other input.  This definition
follows the spec's words and exists only to be compared with
`promptOutcomeCode`, which follows the source. -/
def promptOutcomeClaimed (input : String) : PromptOutcome :=
  let a := toLowerStr (trimStr input)
  if a == "" || a == "y" || a == "yes" then .proceed
  else if a == "n" || a == "no" then .abort
  else .reprompt

/- ----------- process runners (main.rs lines 634-699) ----------- -/

/-- Embedding of `run_command_printing`: any non-zero or signal status is an
error. -/
def run_command_printing (st : ExitStatus) : Except Err Unit :=
  match st with
  | .exited 0 => .ok ()
  | .exited c => .error (.commandFailed (some c))
  | .signaled => .error (.commandFailed none)

/-- Embedding of `run_command_printing_abort_ok`: exit code 1 prints
`:: Aborted by user.` (the returned `Bool`) and is treated as success;
exit code 0 is success; everything else is an error. -/
def run_command_printing_abort_ok (st : ExitStatus) : Bool × Except Err Unit :=
  match st with
  | .exited 0 => (false, .ok ())
  | .exited 1 => (true, .ok ())
  | .exited c => (false, .error (.commandFailed (some c)))
  | .signaled => (false, .error (.commandFailed none))

/- ----------- snapshot cache (main.rs lines 372-401) ----------- -/

/-- Oracle for the snapshot download endpoint: whether the HTTP GET of a
name's snapshot archive answers with a success status. -/
structure DlWorld where
  cache_dir : String
  remote_ok : String → Bool

/-- State threaded through `download_snapshot`: the cache-directory
contents and a count of network requests made so far. -/
structure DlState where
  files : List String
  requests : Nat
  deriving Repr, DecidableEq

/-- Deterministic cache path `snapshot_cache/{name}.tar.gz`. -/
def snapshotPath (cache name : String) : String :=
  cache ++ "/" ++ name ++ ".tar.gz"

/-- Path of the temporary download file created inside the cache directory
(`NamedTempFile::new_in`; the real name is random, modelled as a fixed
distinct path). -/
def tmpPath (cache name : String) : String :=
  cache ++ "/." ++ name ++ ".tar.gz.part"

/-- Embedding of `download_snapshot`: if the deterministic cache path
exists it is returned with no network request; otherwise one request is
made, the body is written to a temporary file in the cache directory and
published to the deterministic path by rename (`tmp.persist(&out)`). -/
def download_snapshot (w : DlWorld) (name : String) (st : DlState) :
    Except Err String × DlState :=
  let out := snapshotPath w.cache_dir name
  if st.files.contains out then (.ok out, st)
  else
    let st1 : DlState := { st with requests := st.requests + 1 }
    if w.remote_ok name = false then (.error (.downloadFailed name), st1)
    else
      let tp := tmpPath w.cache_dir name
      let st2 : DlState := { st1 with files := st1.files ++ [tp] }
      let st3 : DlState :=
        { st2 with files := (st2.files.filter fun p => !(p == tp)) ++ [out] }
      (.ok out, st3)

/- ----------- startup tool check (main.rs lines 548-556, 623-631) ----------- -/

/-- Embedding of the loop body of `ensure_tools`: `which(bin)?` for each
listed binary, failing at the first one that cannot be located. -/
def ensure_tools (avail : String → Bool) : List String → Except Err Unit
  | [] => .ok ()
  | b :: bs => if avail b then ensure_tools avail bs else .error (.toolMissing b)

/-- The exact list of binaries `ensure_tools` iterates over in the source:
`["bsdtar", "makepkg", &cfg.pacman]`. -/
def toolsChecked (pacman : String) : List String :=
  ["bsdtar", "makepkg", pacman]

/-- A process specification: program plus argument list. -/
structure Cmd where
  prog : String
  args : List String
  deriving Repr, DecidableEq

/-- Embedding of `with_sudo`: wraps a command by prefixing the elevation
binary, preserving the original program and arguments as discrete tokens.
Note that it performs no `which` lookup of the elevation binary. -/
def with_sudo (sudoBin : String) (c : Cmd) : Cmd :=
  { prog := sudoBin, args := c.prog :: c.args }

/- ----------- AUR build pipeline (main.rs lines 416-544) ----------- -/

/-- Inputs and external-process outcomes of `aur_build_install` for one
package.  Snapshot fetching and extraction are abstracted by the
`fetch_ok` / `extract_ok` / `layout_ok` flags (the cache-state evolution
of the fetch is modelled separately by `download_snapshot`); `targets` is
the output of `makepkg --packagelist`, and `build_outputs` the set of
paths a `makepkg` build run would create. -/
structure AurEnv where
  name : String
  build_dir : String
  fetch_ok : Bool
  extract_ok : Bool
  layout_ok : Bool
  pkgbuild_present : Bool
  view_input : String
  editor_status : ExitStatus
  targets : List String
  build_status : ExitStatus
  build_outputs : List String
  install_status : ExitStatus
  deriving Repr, DecidableEq

/-- Last path component, modelling `Path::file_name()` for the paths that
`makepkg --packagelist` prints. -/
def basename (p : String) : String :=
  (p.splitOn "/").getLastD p

/-- Workspace copy of a planned artifact: `build_dir.join(t.file_name())`. -/
def localPath (bd t : String) : String :=
  bd ++ "/" ++ basename t

/-- Events of the optional PKGBUILD review step (main.rs lines 427-440):
when a PKGBUILD is present the user is prompted, and the editor is spawned
only on an affirmative answer. -/
def editorEvs (env : AurEnv) : List Ev :=
  if env.pkgbuild_present then
    if prompt_yes_no env.view_input then [Ev.promptView, Ev.editorRun]
    else [Ev.promptView]
  else []

/-- The condition under which `aur_build_install` returns early with
success (main.rs lines 432-437): PKGBUILD present, user accepted viewing,
and the editor process did not exit successfully. -/
def earlyAbort (env : AurEnv) : Bool :=
  env.pkgbuild_present && prompt_yes_no env.view_input &&
    !(decide (env.editor_status = ExitStatus.exited 0))

/-- Embedding of the force-handling loop (main.rs lines 449-467): for each
planned target, remove it at its destination if it exists, then remove the
same-basename file in the workspace if it exists.  Returns the removal
events and the resulting filesystem. -/
def forceRemove (bd : String) : List String → List String → List Ev × List String
  | [], fs => ([], fs)
  | t :: ts, fs =>
    let evs1 : List Ev := if fs.contains t then [Ev.removeFile t] else []
    let fs1 := fs.filter fun p => !(p == t)
    let l := localPath bd t
    let evs2 : List Ev := if fs1.contains l then [Ev.removeFile l] else []
    let fs2 := fs1.filter fun p => !(p == l)
    let r := forceRemove bd ts fs2
    (evs1 ++ evs2 ++ r.1, r.2)

/-- Embedding of the post-build reconciliation loop (main.rs lines
498-510): for each planned target missing at its destination, if a
same-basename file exists in the workspace root it is renamed to the
destination; otherwise nothing happens (the target is NOT dropped from
the plan). -/
def relocPhase (bd : String) : List String → List String → List Ev × List String
  | [], fs => ([], fs)
  | t :: ts, fs =>
    if fs.contains t then relocPhase bd ts fs
    else
      let l := localPath bd t
      if fs.contains l then
        let fs1 := (fs.filter fun p => !(p == l)) ++ [t]
        let r := relocPhase bd ts fs1
        (Ev.relocate l t :: r.1, r.2)
      else relocPhase bd ts fs

/-- Embedding of `aur_build_install` (main.rs lines 416-524): fetch and
extract the snapshot, optionally review the PKGBUILD (returning success
early when the editor exits non-zero), resolve the planned targets with
`makepkg --packagelist`, handle `force` removals, skip the build when not
forcing and every target already exists, otherwise build and relocate
stray workspace artifacts, and finally install the planned targets with
`pacman -U` via the abort-tolerant runner. -/
def aur_build_install (env : AurEnv) (force : Bool) (fs : List String) :
    List Ev × List String × Except Err Unit :=
  if env.fetch_ok = false then ([], fs, .error (.downloadFailed env.name))
  else if env.extract_ok = false then ([], fs, .error (.extractFailed env.name))
  else if env.layout_ok = false then ([], fs, .error (.snapshotLayout env.name))
  else if earlyAbort env then (editorEvs env, fs, .ok ())
  else if env.targets.isEmpty then
    (editorEvs env ++ [Ev.packagelist], fs, .error (.emptyPackagelist env.name))
  else
    let evs1 := editorEvs env ++ [Ev.packagelist]
    let fr := if force then forceRemove env.build_dir env.targets fs else ([], fs)
    let evs2 := evs1 ++ fr.1
    let fs1 := fr.2
    if !force && env.targets.all (fun t => fs1.contains t) then
      (evs2 ++ [Ev.installFiles env.targets], fs1,
        (run_command_printing_abort_ok env.install_status).2)
    else
      match run_command_printing env.build_status with
      | .error e => (evs2 ++ [Ev.buildRun], fs1, .error e)
      | .ok _ =>
        let fs2 := fs1 ++ env.build_outputs.filter fun p => !(fs1.contains p)
        let rel := relocPhase env.build_dir env.targets fs2
        (evs2 ++ [Ev.buildRun] ++ rel.1 ++ [Ev.installFiles env.targets], rel.2,
          (run_command_printing_abort_ok env.install_status).2)

/- ----------- classification and sync orchestration (main.rs 215-347) ----------- -/

/-- Oracles for one `-S` invocation: what the binary-repo probe, the
installed probe and the AUR RPC would answer for each name, the user's
answer to the confirmation prompt, the exit status of the batched
`pacman -S`, and the per-package AUR build environment. -/
structure SyncWorld where
  pacman_si_ok : String → Bool
  pacman_installed : String → Bool
  aur_http_ok : String → Bool
  aur_resultcount : String → Int
  aur_results : String → List String
  confirm_input : String
  repo_install_status : ExitStatus
  aurEnvOf : String → AurEnv

/-- Embedding of `aur_exists` (main.rs lines 358-370): an unsuccessful RPC
response is an error; otherwise presence is `resultcount > 0` and some
returned record's name equals the query exactly. -/
def aur_exists (w : SyncWorld) (name : String) : Except Err Bool :=
  if w.aur_http_ok name = false then .error (.rpcFailed name)
  else
    .ok (decide (w.aur_resultcount name > 0) &&
      (w.aur_results name).any fun x => x == name)

/-- Embedding of `classify_pkg` (main.rs lines 298-306): probe the binary
repo first; on success return `repo` without any AUR call; otherwise
consult the AUR and return `aur` on an exact match, else fail NotFound. -/
def classify_pkg (w : SyncWorld) (name : String) : List Ev × Except Err PkgKind :=
  if w.pacman_si_ok name then ([Ev.repoProbe name], .ok .repo)
  else
    match aur_exists w name with
    | .error e => ([Ev.repoProbe name, Ev.aurLookup name], .error e)
    | .ok true => ([Ev.repoProbe name, Ev.aurLookup name], .ok .aur)
    | .ok false => ([Ev.repoProbe name, Ev.aurLookup name], .error (.notFound name))

/-- A plan entry as built by `cmd_sync` (main.rs lines 226-247). -/
structure PlanItem where
  name : String
  kind : PkgKind
  installed : Bool
  deriving Repr, DecidableEq

/-- Embedding of the planning loop of `cmd_sync` (main.rs lines 234-248):
classify every requested name in request order, pushing it onto
`repo_pkgs` or `aur_pkgs` and onto the ordered plan; the first
classification error aborts the loop. -/
def planLoop (w : SyncWorld) :
    List String → List Ev × Except Err (List String × List String × List PlanItem)
  | [] => ([], .ok ([], [], []))
  | p :: ps =>
    let c := classify_pkg w p
    match c.2 with
    | .error e => (c.1, .error e)
    | .ok k =>
      let evs := c.1 ++ [Ev.installedProbe p]
      match planLoop w ps with
      | (evs2, .error e) => (evs ++ evs2, .error e)
      | (evs2, .ok (rs, as2, plan)) =>
        (evs ++ evs2,
          .ok ((if k = .repo then p :: rs else rs),
               (if k = .aur then p :: as2 else as2),
               { name := p, kind := k, installed := w.pacman_installed p } :: plan))

/-- Embedding of `pacman_install_repo` (main.rs lines 335-347): one
`pacman -S` over the whole repo batch, run through the abort-tolerant
runner. -/
def pacman_install_repo (w : SyncWorld) (pkgs : List String) :
    List Ev × Except Err Unit :=
  ([Ev.installRepo pkgs], (run_command_printing_abort_ok w.repo_install_status).2)

/-- Embedding of the AUR execution loop of `cmd_sync` (main.rs lines
288-291): process AUR packages one by one, stopping at the first error. -/
def execAur (w : SyncWorld) (force : Bool) :
    List String → List String → List Ev × List String × Except Err Unit
  | [], fs => ([], fs, .ok ())
  | p :: ps, fs =>
    let r := aur_build_install (w.aurEnvOf p) force fs
    match r.2.2 with
    | .error e => (Ev.buildInstall p :: r.1, r.2.1, .error e)
    | .ok _ =>
      let r2 := execAur w force ps r.2.1
      (Ev.buildInstall p :: r.1 ++ r2.1, r2.2.1, r2.2.2)

/-- Embedding of `cmd_sync` (main.rs lines 215-294): classify all names,
bail if nothing was found, delegate pure-repo batches directly to
`pacman -S`, otherwise display the plan, gate on the confirmation prompt,
install the repo batch first, then run the AUR pipeline per package. -/
def cmd_sync (w : SyncWorld) (pkgs : List String) (force : Bool) (fs : List String) :
    List Ev × Except Err Unit :=
  if pkgs.isEmpty then ([], .error .noPkgs)
  else
    match planLoop w pkgs with
    | (evs, .error e) => (evs, .error e)
    | (evs, .ok (repos, aurs, _)) =>
      if repos.isEmpty && aurs.isEmpty then (evs, .error .noPkgsFound)
      else if aurs.isEmpty then
        let r := pacman_install_repo w repos
        (evs ++ r.1, r.2)
      else
        let evs1 := evs ++ [Ev.promptConfirm]
        if prompt_yes_no w.confirm_input = false then (evs1, .ok ())
        else
          let rr : List Ev × Except Err Unit :=
            if repos.isEmpty then ([], .ok ()) else pacman_install_repo w repos
          match rr.2 with
          | .error e => (evs1 ++ rr.1, .error e)
          | .ok _ =>
            let ra := execAur w force aurs fs
            (evs1 ++ rr.1 ++ ra.1, ra.2.2)

/-- Embedding of the startup portion of `main` relevant to `-S` (main.rs
lines 151-186): the tool check runs before any package work; a missing
tool aborts with an empty event trace. -/
def main_sync (avail : String → Bool) (pacmanBin : String) (w : SyncWorld)
    (pkgs : List String) (force : Bool) (fs : List String) :
    List Ev × Except Err Unit :=
  match ensure_tools avail (toolsChecked pacmanBin) with
  | .error e => ([], .error e)
  | .ok _ => cmd_sync w pkgs force fs

/- ----------- trace helpers ----------- -/

/-- Requested-name footprint of one event: which package names an
install/build action is for.  `installRepo` acts for its whole batch in
list order; `buildInstall` marks the start of one AUR package's
build-and-install; all other events are not install/build actions on a
requested name. -/
def evActionNames : Ev → List String
  | .installRepo ps => ps
  | .buildInstall p => [p]
  | _ => []

/-- Names of the install/build actions of a trace, in execution order. -/
def execNames (tr : List Ev) : List String :=
  tr.flatMap evActionNames

/-- Whether an event performs package installation or build work. -/
def isInstallEv : Ev → Bool
  | .installRepo _ => true
  | .installFiles _ => true
  | .buildRun => true
  | .buildInstall _ => true
  | _ => false

/- ---------------------- concrete fixtures for witnesses ---------------------- -/

/-- A concrete AUR build environment used by witnesses and counterexamples. -/
def envA : AurEnv :=
  { name := "a", build_dir := "/ws/a", fetch_ok := true, extract_ok := true,
    layout_ok := true, pkgbuild_present := false, view_input := "",
    editor_status := .exited 0, targets := ["/dest/a.pkg.tar"],
    build_status := .exited 0, build_outputs := [], install_status := .exited 0 }

/-- A concrete sync world: name "a" only in the AUR, name "b" only in the
binary repo, user confirming, all external processes succeeding, each AUR
build producing its planned artifact. -/
def wAB : SyncWorld :=
  { pacman_si_ok := fun q => q == "b"
    pacman_installed := fun _ => false
    aur_http_ok := fun _ => true
    aur_resultcount := fun q => if q == "a" then 1 else 0
    aur_results := fun q => if q == "a" then ["a"] else []
    confirm_input := ""
    repo_install_status := .exited 0
    aurEnvOf := fun q =>
      { name := q, build_dir := "/ws/" ++ q, fetch_ok := true, extract_ok := true,
        layout_ok := true, pkgbuild_present := true, view_input := "n",
        editor_status := .exited 0, targets := ["/dest/" ++ q ++ ".pkg.tar"],
        build_status := .exited 0, build_outputs := ["/dest/" ++ q ++ ".pkg.tar"],
        install_status := .exited 0 } }

/-- A concrete sync world whose AUR environments have a PKGBUILD the user
asks to view, with an editor that exits non-zero. -/
def wEd : SyncWorld :=
  { pacman_si_ok := fun _ => false
    pacman_installed := fun _ => false
    aur_http_ok := fun _ => true
    aur_resultcount := fun _ => 1
    aur_results := fun q => [q]
    confirm_input := ""
    repo_install_status := .exited 0
    aurEnvOf := fun q =>
      { name := q, build_dir := "/ws/" ++ q, fetch_ok := true, extract_ok := true,
        layout_ok := true, pkgbuild_present := true, view_input := "",
        editor_status := .exited 1, targets := ["/dest/" ++ q ++ ".pkg.tar"],
        build_status := .exited 0, build_outputs := ["/dest/" ++ q ++ ".pkg.tar"],
        install_status := .exited 0 } }

/- ---------------------- helper lemmas ---------------------- -/

theorem forceRemove_fst (bd t : String) (ts fs : List String) :
    (forceRemove bd (t :: ts) fs).1
      = ((if fs.contains t then [Ev.removeFile t] else []) ++
         (if (fs.filter fun p => !(p == t)).contains (localPath bd t) then
            [Ev.removeFile (localPath bd t)] else []) ++
         (forceRemove bd ts ((fs.filter fun p => !(p == t)).filter
            fun p => !(p == localPath bd t))).1) := rfl

theorem forceRemove_snd (bd t : String) (ts fs : List String) :
    (forceRemove bd (t :: ts) fs).2
      = (forceRemove bd ts ((fs.filter fun p => !(p == t)).filter
          fun p => !(p == localPath bd t))).2 := rfl

theorem forceRemove_subset (bd : String) (ts : List String) :
    ∀ fs p, p ∈ (forceRemove bd ts fs).2 → p ∈ fs := by
  induction ts with
  | nil => intro fs p h; simpa [forceRemove] using h
  | cons t ts ih =>
    intro fs p h
    rw [forceRemove_snd] at h
    have h2 := ih _ _ h
    simp only [List.mem_filter] at h2
    exact h2.1.1

theorem forceRemove_not_mem (bd : String) (ts : List String) :
    ∀ fs t, t ∈ ts →
      t ∉ (forceRemove bd ts fs).2 ∧ localPath bd t ∉ (forceRemove bd ts fs).2 := by
  induction ts with
  | nil => intro fs t h; cases h
  | cons t0 ts ih =>
    intro fs t h
    rcases List.mem_cons.mp h with rfl | hmem
    · constructor
      · intro hc
        rw [forceRemove_snd] at hc
        have h3 := forceRemove_subset bd ts _ _ hc
        simp [List.mem_filter] at h3
      · intro hc
        rw [forceRemove_snd] at hc
        have h3 := forceRemove_subset bd ts _ _ hc
        simp [List.mem_filter] at h3
    · rw [forceRemove_snd]
      exact ih _ _ hmem

theorem forceRemove_event (bd : String) (ts : List String) :
    ∀ fs s, s ∈ fs → s ∉ (forceRemove bd ts fs).2 →
      Ev.removeFile s ∈ (forceRemove bd ts fs).1 := by
  induction ts with
  | nil =>
    intro fs s h1 h2
    exact absurd h1 h2
  | cons t ts ih =>
    intro fs s h1 h2
    rw [forceRemove_snd] at h2
    rw [forceRemove_fst]
    by_cases hs1 : s ∈ (fs.filter fun p => !(p == t)).filter fun p => !(p == localPath bd t)
    · have h3 := ih _ _ hs1 h2
      exact List.mem_append.mpr (Or.inr h3)
    · by_cases hst : s = t
      · subst hst
        simp [h1]
      · have hsf1 : s ∈ fs.filter fun p => !(p == t) := by
          refine List.mem_filter.mpr ⟨h1, ?_⟩
          simp [hst]
        by_cases hsl : s = localPath bd t
        · subst hsl
          simp [h1, hst]
        · refine absurd (List.mem_filter.mpr ⟨hsf1, ?_⟩) hs1
          simp [hsl]

theorem buildRun_not_mem_editorEvs (env : AurEnv) : Ev.buildRun ∉ editorEvs env := by
  unfold editorEvs
  by_cases h1 : env.pkgbuild_present = true <;>
    by_cases h2 : prompt_yes_no env.view_input = true <;> simp [h1, h2]

theorem execNames_append (a b : List Ev) :
    execNames (a ++ b) = execNames a ++ execNames b := by
  simp [execNames]

theorem execNames_cons (e : Ev) (l : List Ev) :
    execNames (e :: l) = evActionNames e ++ execNames l := by
  simp [execNames]

theorem classify_pkg_trace (w : SyncWorld) (p : String) :
    (classify_pkg w p).1 = [Ev.repoProbe p] ∨
    (classify_pkg w p).1 = [Ev.repoProbe p, Ev.aurLookup p] := by
  unfold classify_pkg
  by_cases hsi : w.pacman_si_ok p = true
  · simp [hsi]
  · cases ha : aur_exists w p with
    | error e0 => simp [hsi, ha]
    | ok b => cases b <;> simp [hsi, ha]

theorem classify_execNames (w : SyncWorld) (p : String) :
    execNames (classify_pkg w p).1 = [] := by
  rcases classify_pkg_trace w p with h | h <;> rw [h] <;> rfl

theorem classify_noInstall (w : SyncWorld) (p : String) :
    ∀ e ∈ (classify_pkg w p).1, isInstallEv e = false := by
  rcases classify_pkg_trace w p with h | h <;> rw [h]
  · intro e he
    simp at he
    subst he
    rfl
  · intro e he
    simp at he
    rcases he with rfl | rfl <;> rfl

theorem planLoop_cons (w : SyncWorld) (p : String) (ps : List String) :
    planLoop w (p :: ps)
      = (let c := classify_pkg w p
         match c.2 with
         | .error e => (c.1, .error e)
         | .ok k =>
           let evs := c.1 ++ [Ev.installedProbe p]
           match planLoop w ps with
           | (evs2, .error e) => (evs ++ evs2, .error e)
           | (evs2, .ok (rs, as2, plan)) =>
             (evs ++ evs2,
               .ok ((if k = .repo then p :: rs else rs),
                    (if k = .aur then p :: as2 else as2),
                    { name := p, kind := k,
                      installed := w.pacman_installed p } :: plan))) := rfl

theorem planLoop_benign (w : SyncWorld) :
    ∀ pkgs : List String, execNames (planLoop w pkgs).1 = [] ∧
      ∀ e ∈ (planLoop w pkgs).1, isInstallEv e = false := by
  intro pkgs
  induction pkgs with
  | nil =>
    refine ⟨rfl, ?_⟩
    intro e he
    simp [planLoop] at he
  | cons p ps ih =>
    cases hc : (classify_pkg w p).2 with
    | error e0 =>
      have ht : (planLoop w (p :: ps)).1 = (classify_pkg w p).1 := by
        rw [planLoop_cons]
        simp [hc]
      rw [ht]
      exact ⟨classify_execNames w p, classify_noInstall w p⟩
    | ok k =>
      have ht : (planLoop w (p :: ps)).1
          = ((classify_pkg w p).1 ++ [Ev.installedProbe p]) ++ (planLoop w ps).1 := by
        rw [planLoop_cons]
        cases hpl : planLoop w ps with
        | mk evs2 r2 => cases r2 <;> simp [hc, hpl]
      rw [ht]
      constructor
      · rw [execNames_append, execNames_append, classify_execNames, ih.1]
        rfl
      · intro e he
        rcases List.mem_append.mp he with h1 | h2
        · rcases List.mem_append.mp h1 with h3 | h4
          · exact classify_noInstall w p e h3
          · simp at h4
            subst h4
            rfl
        · exact ih.2 e h2

theorem classify_pkg_kind (w : SyncWorld) (p : String) (k : PkgKind)
    (h : (classify_pkg w p).2 = Except.ok k) :
    (k = PkgKind.repo ↔ w.pacman_si_ok p = true) := by
  unfold classify_pkg at h
  by_cases hsi : w.pacman_si_ok p = true
  · simp [hsi] at h
    simp [hsi, h.symm]
  · have hsi2 : w.pacman_si_ok p = false := by
      cases hx : w.pacman_si_ok p
      · rfl
      · exact absurd hx hsi
    simp [hsi2] at h
    cases ha : aur_exists w p with
    | error e0 => rw [ha] at h; simp at h
    | ok b =>
      rw [ha] at h
      cases b
      · simp at h
      · simp at h
        constructor
        · intro hk
          rw [← h] at hk
          cases hk
        · intro hk
          rw [hk] at hsi2
          cases hsi2

theorem planLoop_filters (w : SyncWorld) :
    ∀ (pkgs : List String) (evs : List Ev) (rs as2 : List String)
      (plan : List PlanItem),
      planLoop w pkgs = (evs, .ok (rs, as2, plan)) →
      rs = pkgs.filter (fun q => w.pacman_si_ok q) ∧
      as2 = pkgs.filter (fun q => !(w.pacman_si_ok q)) := by
  intro pkgs
  induction pkgs with
  | nil =>
    intro evs rs as2 plan h
    simp [planLoop] at h
    simp [h.2.1, h.2.2.1]
  | cons p ps ih =>
    intro evs rs as2 plan h
    rw [planLoop_cons] at h
    cases hc : (classify_pkg w p).2 with
    | error e0 => simp only [hc] at h; simp at h
    | ok k =>
      simp only [hc] at h
      cases hpl : planLoop w ps with
      | mk evs2 r2 =>
        simp only [hpl] at h
        cases r2 with
        | error e0 => simp at h
        | ok triple =>
          obtain ⟨rs0, as0, plan0⟩ := triple
          simp at h
          obtain ⟨hrs, has, hplan0⟩ := h.2
          obtain ⟨ha, hb⟩ := ih evs2 rs0 as0 plan0 (by rw [hpl])
          have hk := classify_pkg_kind w p k hc
          by_cases hsi : w.pacman_si_ok p = true
          · have hkr : k = PkgKind.repo := hk.mpr hsi
            subst hkr
            constructor
            · rw [← hrs]
              simp [hsi, ha]
            · rw [← has]
              simp [hsi, hb]
          · have hsi2 : w.pacman_si_ok p = false := by
              cases hx : w.pacman_si_ok p
              · rfl
              · exact absurd hx hsi
            have hka : k = PkgKind.aur := by
              cases k
              · exact absurd (hk.mp rfl) hsi
              · rfl
            subst hka
            constructor
            · rw [← hrs]
              simp [hsi2, ha]
            · rw [← has]
              simp [hsi2, hb]

theorem planLoop_error_of_mem (w : SyncWorld) :
    ∀ (pkgs : List String) (p : String) (e0 : Err), p ∈ pkgs →
      (classify_pkg w p).2 = Except.error e0 →
      ∃ e, (planLoop w pkgs).2 = Except.error e := by
  intro pkgs
  induction pkgs with
  | nil => intro p e0 hmem; cases hmem
  | cons q ps ih =>
    intro p e0 hmem herr
    rw [planLoop_cons]
    cases hc : (classify_pkg w q).2 with
    | error e1 =>
      refine ⟨e1, ?_⟩
      simp [hc]
    | ok k =>
      rcases List.mem_cons.mp hmem with rfl | hmem2
      · rw [hc] at herr
        cases herr
      · obtain ⟨e, hp⟩ := ih p e0 hmem2 herr
        cases hpl : planLoop w ps with
        | mk evs2 r2 =>
          rw [hpl] at hp
          simp at hp
          subst hp
          refine ⟨e, ?_⟩
          simp [hc, hpl]

theorem execAur_cons (w : SyncWorld) (force : Bool) (p : String) (ps : List String)
    (fs : List String) :
    execAur w force (p :: ps) fs
      = (let r := aur_build_install (w.aurEnvOf p) force fs
         match r.2.2 with
         | .error e => (Ev.buildInstall p :: r.1, r.2.1, .error e)
         | .ok _ =>
           let r2 := execAur w force ps r.2.1
           (Ev.buildInstall p :: r.1 ++ r2.1, r2.2.1, r2.2.2)) := rfl

theorem editorEvs_execNames (env : AurEnv) : execNames (editorEvs env) = [] := by
  unfold editorEvs
  by_cases h1 : env.pkgbuild_present = true <;>
    by_cases h2 : prompt_yes_no env.view_input = true <;>
      simp [h1, h2, execNames, evActionNames]

theorem execNames_removeFile_ite (c : Prop) [Decidable c] (p : String) :
    execNames (if c then [Ev.removeFile p] else []) = [] := by
  split <;> rfl

theorem forceRemove_execNames (bd : String) (ts : List String) :
    ∀ fs, execNames (forceRemove bd ts fs).1 = [] := by
  induction ts with
  | nil => intro fs; rfl
  | cons t ts ih =>
    intro fs
    rw [forceRemove_fst, execNames_append, execNames_append, ih,
      execNames_removeFile_ite, execNames_removeFile_ite]
    rfl

theorem relocPhase_execNames (bd : String) (ts : List String) :
    ∀ fs, execNames (relocPhase bd ts fs).1 = [] := by
  induction ts with
  | nil => intro fs; rfl
  | cons t ts ih =>
    intro fs
    unfold relocPhase
    by_cases h1 : t ∈ fs
    · simp [h1, ih]
    · by_cases h2 : localPath bd t ∈ fs
      · simp [h1, h2, execNames_cons, evActionNames, ih]
      · simp [h1, h2, ih]

theorem execNames_nil : execNames [] = [] := rfl

theorem aur_build_install_execNames (env : AurEnv) (force : Bool) (fs : List String) :
    execNames (aur_build_install env force fs).1 = [] := by
  by_cases h1 : env.fetch_ok = false
  · have ht : (aur_build_install env force fs).1 = [] := by
      unfold aur_build_install
      simp [h1]
    rw [ht]
    rfl
  by_cases h2 : env.extract_ok = false
  · have ht : (aur_build_install env force fs).1 = [] := by
      unfold aur_build_install
      simp [h1, h2]
    rw [ht]
    rfl
  by_cases h3 : env.layout_ok = false
  · have ht : (aur_build_install env force fs).1 = [] := by
      unfold aur_build_install
      simp [h1, h2, h3]
    rw [ht]
    rfl
  by_cases h4 : earlyAbort env = true
  · have ht : (aur_build_install env force fs).1 = editorEvs env := by
      unfold aur_build_install
      simp [h1, h2, h3, h4]
    rw [ht, editorEvs_execNames]
  by_cases h5 : env.targets.isEmpty = true
  · have ht : (aur_build_install env force fs).1
        = editorEvs env ++ [Ev.packagelist] := by
      unfold aur_build_install
      simp [h1, h2, h3, h4, h5]
    rw [ht]
    simp [execNames_append, execNames_cons, execNames_nil, editorEvs_execNames,
      evActionNames]
  by_cases h6 : force = true
  · cases hb : run_command_printing env.build_status with
    | error e =>
      have ht : (aur_build_install env force fs).1
          = editorEvs env ++ [Ev.packagelist]
            ++ (forceRemove env.build_dir env.targets fs).1 ++ [Ev.buildRun] := by
        unfold aur_build_install
        simp [h1, h2, h3, h4, h5, h6, hb]
      rw [ht]
      simp [execNames_append, execNames_cons, execNames_nil, editorEvs_execNames,
        forceRemove_execNames, evActionNames]
    | ok u =>
      have ht : ∃ l, (aur_build_install env force fs).1
          = editorEvs env ++ [Ev.packagelist]
            ++ (forceRemove env.build_dir env.targets fs).1 ++ [Ev.buildRun]
            ++ (relocPhase env.build_dir env.targets l).1
            ++ [Ev.installFiles env.targets] := by
        refine ⟨(forceRemove env.build_dir env.targets fs).2
          ++ env.build_outputs.filter
            (fun p => !((forceRemove env.build_dir env.targets fs).2.contains p)), ?_⟩
        unfold aur_build_install
        simp [h1, h2, h3, h4, h5, h6, hb]
      obtain ⟨l, ht⟩ := ht
      rw [ht]
      simp [execNames_append, execNames_cons, execNames_nil, editorEvs_execNames,
        forceRemove_execNames, relocPhase_execNames, evActionNames]
  · have h6f : force = false := by
      cases force
      · rfl
      · exact absurd rfl h6
    by_cases hsk : ∀ x ∈ env.targets, x ∈ fs
    · have ht : (aur_build_install env force fs).1
          = editorEvs env ++ [Ev.packagelist] ++ [Ev.installFiles env.targets] := by
        unfold aur_build_install
        simp [h1, h2, h3, h4, h5, h6f]
        rw [if_pos hsk]
      rw [ht]
      simp [execNames_append, execNames_cons, execNames_nil, editorEvs_execNames,
        evActionNames]
    · cases hb : run_command_printing env.build_status with
      | error e =>
        have ht : (aur_build_install env force fs).1
            = editorEvs env ++ [Ev.packagelist] ++ [Ev.buildRun] := by
          unfold aur_build_install
          simp [h1, h2, h3, h4, h5, h6f, hb]
          rw [if_neg hsk]
        rw [ht]
        simp [execNames_append, execNames_cons, execNames_nil, editorEvs_execNames,
          evActionNames]
      | ok u =>
        have ht : ∃ l, (aur_build_install env force fs).1
            = editorEvs env ++ [Ev.packagelist] ++ [Ev.buildRun]
              ++ (relocPhase env.build_dir env.targets l).1
              ++ [Ev.installFiles env.targets] := by
          refine ⟨fs ++ env.build_outputs.filter (fun p => !(fs.contains p)), ?_⟩
          unfold aur_build_install
          simp [h1, h2, h3, h4, h5, h6f, hb]
          rw [if_neg hsk]
        obtain ⟨l, ht⟩ := ht
        rw [ht]
        simp [execNames_append, execNames_cons, execNames_nil, editorEvs_execNames,
          relocPhase_execNames, evActionNames]

theorem execAur_execNames (w : SyncWorld) (force : Bool) :
    ∀ (as2 fs : List String), (execAur w force as2 fs).2.2 = Except.ok () →
      execNames (execAur w force as2 fs).1 = as2 := by
  intro as2
  induction as2 with
  | nil => intro fs _; rfl
  | cons p ps ih =>
    intro fs hok
    rw [execAur_cons] at hok ⊢
    cases hr : (aur_build_install (w.aurEnvOf p) force fs).2.2 with
    | error e =>
      exfalso
      simp only [hr] at hok
      exact absurd hok (by simp)
    | ok u =>
      simp only [hr] at hok ⊢
      rw [execNames_append, execNames_cons, aur_build_install_execNames,
        ih _ hok]
      rfl

theorem execAur_ok_of_cons (w : SyncWorld) (force : Bool) (p : String)
    (ps : List String) (fs : List String)
    (hok : (execAur w force (p :: ps) fs).2.2 = Except.ok ()) :
    (aur_build_install (w.aurEnvOf p) force fs).2.2 = Except.ok () ∧
    (execAur w force ps (aur_build_install (w.aurEnvOf p) force fs).2.1).2.2
      = Except.ok () := by
  rw [execAur_cons] at hok
  cases hr : (aur_build_install (w.aurEnvOf p) force fs).2.2 with
  | error e =>
    exfalso
    simp only [hr] at hok
    exact absurd hok (by simp)
  | ok u =>
    simp only [hr] at hok
    exact ⟨rfl, hok⟩

theorem ensure_tools_ok_iff (avail : String → Bool) (bs : List String) :
    ensure_tools avail bs = Except.ok () ↔ ∀ b ∈ bs, avail b = true := by
  induction bs with
  | nil => simp [ensure_tools]
  | cons b bs ih =>
    by_cases h : avail b = true
    · simp [ensure_tools, h, ih]
    · have h2 : avail b = false := by
        cases hb : avail b
        · rfl
        · exact absurd hb h
      simp [ensure_tools, h2]

theorem ensure_tools_congr (a1 a2 : String → Bool) (bs : List String)
    (h : ∀ b ∈ bs, a1 b = a2 b) :
    ensure_tools a1 bs = ensure_tools a2 bs := by
  induction bs with
  | nil => rfl
  | cons b bs ih =>
    have hb : a1 b = a2 b := h b (by simp)
    have ht := ih (fun x hx => h x (by simp [hx]))
    unfold ensure_tools
    rw [hb, ht]

theorem tmpPath_ne_snapshotPath (c n : String) : tmpPath c n ≠ snapshotPath c n := by
  intro h
  have h2 := congrArg String.length h
  simp only [tmpPath, snapshotPath, String.length_append] at h2
  have e1 : ("/." : String).length = 2 := by decide
  have e2 : (".tar.gz.part" : String).length = 12 := by decide
  have e3 : ("/" : String).length = 1 := by decide
  have e4 : (".tar.gz" : String).length = 7 := by decide
  rw [e1, e2, e3, e4] at h2
  omega

/- ---------------------- claims ---------------------- -/

/-- C2 counterexample: the claim says any input other than the affirmative
and negative words re-prompts instead of deciding, but the code decides
"abort" on the input "maybe" (there is no re-prompt loop in
`prompt_yes_no`). -/
theorem c2_counterexample :
    promptOutcomeCode "maybe" = PromptOutcome.abort ∧
    promptOutcomeClaimed "maybe" = PromptOutcome.reprompt ∧
    promptOutcomeCode "maybe" ≠ promptOutcomeClaimed "maybe" := by
  decide

/-- C2 (amended): the prompt returns proceed exactly when the trimmed
input is case-insensitively empty, "y" or "yes"; any other input —
including "n"/"no" but also arbitrary text — returns abort; the prompt
never re-prompts. -/
theorem c2_prompt_decides (s : String) :
    (prompt_yes_no s = true ↔
      (toLowerStr (trimStr s) = "" ∨ toLowerStr (trimStr s) = "y" ∨
        toLowerStr (trimStr s) = "yes")) ∧
    promptOutcomeCode s ≠ PromptOutcome.reprompt ∧
    (promptOutcomeCode s = PromptOutcome.abort ↔
      ¬(toLowerStr (trimStr s) = "" ∨ toLowerStr (trimStr s) = "y" ∨
        toLowerStr (trimStr s) = "yes")) := by
  have h : prompt_yes_no s = true ↔
      (toLowerStr (trimStr s) = "" ∨ toLowerStr (trimStr s) = "y" ∨
        toLowerStr (trimStr s) = "yes") := by
    unfold prompt_yes_no
    simp [Bool.or_eq_true, or_assoc]
  refine ⟨h, ?_, ?_⟩
  · unfold promptOutcomeCode
    cases hp : prompt_yes_no s <;> simp
  · unfold promptOutcomeCode
    cases hp : prompt_yes_no s <;> simp_all

/-- C8: for both package-manager install invocations, exit code 1 (the
"user declined" convention) prints the abort notice and the step returns
success, exit code 0 returns success silently, and every other exit status
is an error; `pacman_install_repo` routes through exactly this runner. -/
theorem c8_declined_exit (st : ExitStatus) (w : SyncWorld) (ps : List String) :
    run_command_printing_abort_ok (ExitStatus.exited 1) = (true, Except.ok ()) ∧
    ((run_command_printing_abort_ok st).2 = Except.ok () ↔
      (st = ExitStatus.exited 0 ∨ st = ExitStatus.exited 1)) ∧
    ((run_command_printing_abort_ok st).1 = true ↔ st = ExitStatus.exited 1) ∧
    (pacman_install_repo w ps).2
      = (run_command_printing_abort_ok w.repo_install_status).2 ∧
    (pacman_install_repo w ps).1 = [Ev.installRepo ps] := by
  refine ⟨rfl, ?_, ?_, rfl, rfl⟩ <;>
  · cases st with
    | signaled => simp [run_command_printing_abort_ok]
    | exited c =>
      rcases c with _ | _ | c <;> simp [run_command_printing_abort_ok]

/-- C9 counterexample: the startup tool check succeeds even when the
elevation binary ("sudo") cannot be located — `ensure_tools` only checks
the archive tool, the build tool and the package manager, and the
elevation binary is not in that list. -/
theorem c9_counterexample :
    ensure_tools (fun b => !(b == "sudo")) (toolsChecked "pacman") = Except.ok () ∧
    ("sudo" ∈ toolsChecked "pacman" → False) ∧
    (fun b => !(b == "sudo")) "sudo" = false := by
  decide

/-- C9 (amended): the startup check locates exactly the archive tool, the
build tool and the package manager, failing if any of those is missing and
aborting before any package work; the elevation binary is never checked —
the check's outcome is independent of any binary outside that list, and
`with_sudo` wraps commands without locating the elevation binary. -/
theorem c9_startup_check (avail avail2 : String → Bool) (pacmanBin : String)
    (w : SyncWorld) (pkgs : List String) (force : Bool) (fs : List String)
    (hagree : ∀ b ∈ toolsChecked pacmanBin, avail b = avail2 b) :
    (ensure_tools avail (toolsChecked pacmanBin) = Except.ok () ↔
      ∀ b ∈ toolsChecked pacmanBin, avail b = true) ∧
    ensure_tools avail (toolsChecked pacmanBin)
      = ensure_tools avail2 (toolsChecked pacmanBin) ∧
    (∀ e, ensure_tools avail (toolsChecked pacmanBin) = Except.error e →
      main_sync avail pacmanBin w pkgs force fs = ([], Except.error e)) ∧
    (∀ sb c, with_sudo sb c = { prog := sb, args := c.prog :: c.args }) := by
  refine ⟨ensure_tools_ok_iff _ _, ensure_tools_congr _ _ _ hagree, ?_, fun _ _ => rfl⟩
  intro e he
  unfold main_sync
  rw [he]

/-- C9 witness: the amended startup-check theorem applied to a concrete
availability oracle and configuration. -/
theorem c9_witness :
    ensure_tools (fun _ => true) (toolsChecked "pacman") = Except.ok () ↔
      ∀ b ∈ toolsChecked "pacman", (fun _ => true) b = true :=
  (c9_startup_check (fun _ => true) (fun _ => true) "pacman" wAB [] false []
    (fun _ _ => rfl)).1

/-- C6: snapshot fetch is idempotent and, through the temp-file-then-rename
publish, atomic: a fetch whose deterministic cache path already exists
returns that path with no network request and no state change; otherwise
the fetch succeeds after exactly one request, two successive fetches of
the same name make at most one request in total, the second fetch is a
pure cache hit returning the identical path, and no temporary file is left
visible in the cache. -/
theorem c6_snapshot_cache (w : DlWorld) (name : String) (st : DlState)
    (hremote : w.remote_ok name = true)
    (htmp : tmpPath w.cache_dir name ∉ st.files) :
    (snapshotPath w.cache_dir name ∈ st.files →
      download_snapshot w name st = (Except.ok (snapshotPath w.cache_dir name), st)) ∧
    (download_snapshot w name st).1 = Except.ok (snapshotPath w.cache_dir name) ∧
    (download_snapshot w name st).2.requests ≤ st.requests + 1 ∧
    download_snapshot w name (download_snapshot w name st).2
      = (Except.ok (snapshotPath w.cache_dir name), (download_snapshot w name st).2) ∧
    tmpPath w.cache_dir name ∉ (download_snapshot w name st).2.files := by
  have hne := tmpPath_ne_snapshotPath w.cache_dir name
  by_cases hhit : snapshotPath w.cache_dir name ∈ st.files
  · have he : download_snapshot w name st
        = (Except.ok (snapshotPath w.cache_dir name), st) := by
      unfold download_snapshot
      simp [hhit]
    exact ⟨fun _ => he, by rw [he], by rw [he]; exact Nat.le_succ _,
      by rw [he]; exact he, by rw [he]; exact htmp⟩
  · have he : download_snapshot w name st
        = (Except.ok (snapshotPath w.cache_dir name),
           { files := (st.files.filter fun p => !(p == tmpPath w.cache_dir name))
               ++ [snapshotPath w.cache_dir name],
             requests := st.requests + 1 }) := by
      unfold download_snapshot
      simp [hhit, hremote]
    refine ⟨fun hcontra => absurd hcontra hhit, by rw [he], by rw [he],
      ?_, ?_⟩
    · rw [he]
      unfold download_snapshot
      simp
    · rw [he]
      simp [List.mem_filter, hne]

/-- C6 witness: a fetch into an empty cache at concrete inputs succeeds and
makes at most one request. -/
theorem c6_witness :
    (download_snapshot { cache_dir := "/cache", remote_ok := fun _ => true } "a"
        { files := [], requests := 0 }).1
      = Except.ok (snapshotPath "/cache" "a") ∧
    (download_snapshot { cache_dir := "/cache", remote_ok := fun _ => true } "a"
        { files := [], requests := 0 }).2.requests ≤ 0 + 1 := by
  have h := c6_snapshot_cache { cache_dir := "/cache", remote_ok := fun _ => true } "a"
    { files := [], requests := 0 } rfl (by simp)
  exact ⟨h.2.1, h.2.2.1⟩

/-- C3 counterexample: with a planned target, a build that exits 0 but
leaves the artifact neither at its destination nor in the workspace, the
pipeline succeeds and the installer is invoked with the full planned set —
the missing path is NOT removed from the install set and no
NoArtifactsProduced failure occurs (no such error exists in the code). -/
theorem c3_counterexample :
    (aur_build_install envA false []).2.2 = Except.ok () ∧
    Ev.installFiles ["/dest/a.pkg.tar"] ∈ (aur_build_install envA false []).1 ∧
    ("/dest/a.pkg.tar" ∈ (aur_build_install envA false []).2.1 → False) := by
  decide

/-- C3 (amended): after a successful build exit and workspace-to-destination
relocation, planned paths still missing at their destination are NOT
removed from the install set: the installer is always invoked with the
unmodified planned target list, even when every planned path is missing. -/
theorem c3_install_set_unchanged (env : AurEnv) (force : Bool) (fs : List String)
    (hfe : env.fetch_ok = true) (hx : env.extract_ok = true) (hl : env.layout_ok = true)
    (hab : earlyAbort env = false) (hne : env.targets.isEmpty = false)
    (hbuild : env.build_status = ExitStatus.exited 0) :
    Ev.installFiles env.targets ∈ (aur_build_install env force fs).1 := by
  unfold aur_build_install
  rw [hfe, hx, hl, hab, hne, hbuild]
  simp [run_command_printing]
  split <;> split <;> simp

/-- C3 witness: the amended install-set theorem applied at a concrete
environment where the planned artifact is missing after the build. -/
theorem c3_witness :
    Ev.installFiles ["/dest/a.pkg.tar"] ∈ (aur_build_install envA false []).1 :=
  c3_install_set_unchanged envA false [] rfl rfl rfl rfl rfl rfl

/-- C4: with `force` unset and every planned path existing at its
destination, the build tool is never invoked, the filesystem is untouched,
and exactly the existing planned files are passed to the installer. -/
theorem c4_skip_rebuild (env : AurEnv) (fs : List String)
    (hfe : env.fetch_ok = true) (hx : env.extract_ok = true) (hl : env.layout_ok = true)
    (hab : earlyAbort env = false) (hne : env.targets.isEmpty = false)
    (hall : ∀ t ∈ env.targets, t ∈ fs) :
    (aur_build_install env false fs).1
      = editorEvs env ++ [Ev.packagelist, Ev.installFiles env.targets] ∧
    Ev.buildRun ∉ (aur_build_install env false fs).1 ∧
    (aur_build_install env false fs).2.1 = fs ∧
    (aur_build_install env false fs).2.2
      = (run_command_printing_abort_ok env.install_status).2 := by
  have hcond : (env.targets.all fun t => fs.contains t) = true := by
    rw [List.all_eq_true]
    intro t ht
    simpa using hall t ht
  have he : aur_build_install env false fs
      = (editorEvs env ++ [Ev.packagelist, Ev.installFiles env.targets], fs,
         (run_command_printing_abort_ok env.install_status).2) := by
    unfold aur_build_install
    rw [hfe, hx, hl, hab, hne]
    simp [hcond]
    intro x hx hnx
    exact absurd (hall x hx) hnx
  refine ⟨by rw [he], ?_, by rw [he], by rw [he]⟩
  rw [he]
  simp [buildRun_not_mem_editorEvs env]

/-- C4 witness: the skip-rebuild theorem applied at a concrete environment
whose planned artifact already exists. -/
theorem c4_witness :
    Ev.buildRun ∉ (aur_build_install envA false ["/dest/a.pkg.tar"]).1 ∧
    (aur_build_install envA false ["/dest/a.pkg.tar"]).2.1 = ["/dest/a.pkg.tar"] := by
  have h := c4_skip_rebuild envA ["/dest/a.pkg.tar"] rfl rfl rfl rfl rfl (by decide)
  exact ⟨h.2.1, h.2.2.1⟩

/-- C5: with `force` set, every planned path existing at its destination or
as a same-basename workspace file is deleted before the build tool runs
(the removal events precede the build event, and the filesystem handed to
the build step contains neither the targets nor their workspace copies),
and the build tool is then always invoked. -/
theorem c5_force_clears (env : AurEnv) (fs : List String)
    (hfe : env.fetch_ok = true) (hx : env.extract_ok = true) (hl : env.layout_ok = true)
    (hab : earlyAbort env = false) (hne : env.targets.isEmpty = false) :
    Ev.buildRun ∈ (aur_build_install env true fs).1 ∧
    (∃ rest, (aur_build_install env true fs).1
      = editorEvs env ++ [Ev.packagelist] ++ (forceRemove env.build_dir env.targets fs).1
        ++ [Ev.buildRun] ++ rest) ∧
    (∀ t ∈ env.targets,
      t ∉ (forceRemove env.build_dir env.targets fs).2 ∧
      localPath env.build_dir t ∉ (forceRemove env.build_dir env.targets fs).2 ∧
      (t ∈ fs → Ev.removeFile t ∈ (forceRemove env.build_dir env.targets fs).1) ∧
      (localPath env.build_dir t ∈ fs →
        Ev.removeFile (localPath env.build_dir t)
          ∈ (forceRemove env.build_dir env.targets fs).1)) := by
  have hdec : ∃ rest, (aur_build_install env true fs).1
      = editorEvs env ++ [Ev.packagelist] ++ (forceRemove env.build_dir env.targets fs).1
        ++ [Ev.buildRun] ++ rest := by
    unfold aur_build_install
    rw [hfe, hx, hl, hab, hne]
    cases hrc : run_command_printing env.build_status with
    | error e =>
      refine ⟨[], ?_⟩
      simp [hrc]
    | ok u =>
      refine ⟨(relocPhase env.build_dir env.targets
          ((forceRemove env.build_dir env.targets fs).2 ++
            env.build_outputs.filter fun p =>
              !((forceRemove env.build_dir env.targets fs).2.contains p))).1
        ++ [Ev.installFiles env.targets], ?_⟩
      simp [hrc]
  refine ⟨?_, hdec, ?_⟩
  · obtain ⟨rest, hr⟩ := hdec
    rw [hr]
    simp
  · intro t ht
    obtain ⟨h1, h2⟩ := forceRemove_not_mem env.build_dir env.targets fs t ht
    exact ⟨h1, h2,
      fun hm => forceRemove_event env.build_dir env.targets fs t hm h1,
      fun hm => forceRemove_event env.build_dir env.targets fs _ hm h2⟩

/-- C5 witness: the force-clears theorem applied at a concrete environment
whose planned artifact exists both at its destination and in the
workspace. -/
theorem c5_witness :
    Ev.buildRun ∈
      (aur_build_install envA true ["/dest/a.pkg.tar", "/ws/a/a.pkg.tar"]).1 ∧
    "/dest/a.pkg.tar" ∉
      (forceRemove "/ws/a" ["/dest/a.pkg.tar"]
        ["/dest/a.pkg.tar", "/ws/a/a.pkg.tar"]).2 := by
  have h := c5_force_clears envA ["/dest/a.pkg.tar", "/ws/a/a.pkg.tar"]
    rfl rfl rfl rfl rfl
  exact ⟨h.1, (h.2.2 "/dest/a.pkg.tar" (by decide)).1⟩

/-- C10: when the extracted tree has a PKGBUILD, the user accepts the view
prompt and the editor exits non-zero, the package's pipeline returns
success immediately with no planning, build or install step, and the
remaining packages of the batch are still processed with the batch's
result equal to the remaining packages' result. -/
theorem c10_editor_abort (w : SyncWorld) (p : String) (ps : List String)
    (force : Bool) (fs : List String)
    (hfe : (w.aurEnvOf p).fetch_ok = true) (hx : (w.aurEnvOf p).extract_ok = true)
    (hl : (w.aurEnvOf p).layout_ok = true)
    (hpb : (w.aurEnvOf p).pkgbuild_present = true)
    (hv : prompt_yes_no (w.aurEnvOf p).view_input = true)
    (hed : ¬(w.aurEnvOf p).editor_status = ExitStatus.exited 0) :
    aur_build_install (w.aurEnvOf p) force fs
      = ([Ev.promptView, Ev.editorRun], fs, Except.ok ()) ∧
    execAur w force (p :: ps) fs
      = (Ev.buildInstall p :: Ev.promptView :: Ev.editorRun :: (execAur w force ps fs).1,
         (execAur w force ps fs).2.1, (execAur w force ps fs).2.2) ∧
    ((execAur w force ps fs).2.2 = Except.ok () →
      (execAur w force (p :: ps) fs).2.2 = Except.ok ()) := by
  have habort : earlyAbort (w.aurEnvOf p) = true := by
    unfold earlyAbort
    simp [hpb, hv, hed]
  have h1 : aur_build_install (w.aurEnvOf p) force fs
      = ([Ev.promptView, Ev.editorRun], fs, Except.ok ()) := by
    unfold aur_build_install
    rw [hfe, hx, hl, habort]
    simp [editorEvs, hpb, hv]
  have h2 : execAur w force (p :: ps) fs
      = (Ev.buildInstall p :: Ev.promptView :: Ev.editorRun :: (execAur w force ps fs).1,
         (execAur w force ps fs).2.1, (execAur w force ps fs).2.2) := by
    have hstep : execAur w force (p :: ps) fs
        = (let r := aur_build_install (w.aurEnvOf p) force fs
           match r.2.2 with
           | .error e => (Ev.buildInstall p :: r.1, r.2.1, .error e)
           | .ok _ =>
             let r2 := execAur w force ps r.2.1
             (Ev.buildInstall p :: r.1 ++ r2.1, r2.2.1, r2.2.2)) := rfl
    rw [hstep, h1]
    exact rfl
  exact ⟨h1, h2, fun hok => by rw [h2]; exact hok⟩

/-- C10 witness: the editor-abort theorem applied at a concrete world whose
editor exits with status 1. -/
theorem c10_witness :
    aur_build_install (wEd.aurEnvOf "x") false []
      = ([Ev.promptView, Ev.editorRun], [], Except.ok ()) :=
  (c10_editor_abort wEd "x" [] false [] rfl rfl rfl rfl rfl (by decide)).1

/-- C7: classification probes the binary repository first and, when the
probe succeeds, returns BinaryRepo without any AUR (source-build) network
call; when the probe fails and the AUR lookup succeeds with no exact-name
match, classification fails with NotFound and the whole sync invocation
errors out before any install or build action executes for any name of the
batch. -/
theorem c7_classify_order (w : SyncWorld) (pkgs : List String) (p : String)
    (force : Bool) (fs : List String)
    (hmem : p ∈ pkgs)
    (hsi : w.pacman_si_ok p = false)
    (hhttp : w.aur_http_ok p = true)
    (hnomatch : ((w.aur_results p).any fun x => x == p) = false) :
    (∀ q, w.pacman_si_ok q = true →
      classify_pkg w q = ([Ev.repoProbe q], Except.ok PkgKind.repo) ∧
      Ev.aurLookup q ∉ (classify_pkg w q).1) ∧
    (classify_pkg w p).2 = Except.error (Err.notFound p) ∧
    (∃ e, (cmd_sync w pkgs force fs).2 = Except.error e) ∧
    (∀ e ∈ (cmd_sync w pkgs force fs).1, isInstallEv e = false) := by
  have hclass : (classify_pkg w p).2 = Except.error (Err.notFound p) := by
    unfold classify_pkg
    simp [hsi, aur_exists, hhttp, hnomatch]
  have hrepo : ∀ q, w.pacman_si_ok q = true →
      classify_pkg w q = ([Ev.repoProbe q], Except.ok PkgKind.repo) ∧
      Ev.aurLookup q ∉ (classify_pkg w q).1 := by
    intro q hq
    have he : classify_pkg w q = ([Ev.repoProbe q], Except.ok PkgKind.repo) := by
      unfold classify_pkg
      simp [hq]
    refine ⟨he, ?_⟩
    rw [he]
    simp
  obtain ⟨e, he⟩ := planLoop_error_of_mem w pkgs p (Err.notFound p) hmem hclass
  have hpkgs : pkgs.isEmpty = false := by
    cases pkgs
    · cases hmem
    · rfl
  have hcmd : cmd_sync w pkgs force fs = ((planLoop w pkgs).1, Except.error e) := by
    cases hpl : planLoop w pkgs with
    | mk evs2 r2 =>
      unfold cmd_sync
      rw [hpl] at he ⊢
      simp at he
      subst he
      simp [hpkgs]
  refine ⟨hrepo, hclass, ⟨e, by rw [hcmd]⟩, ?_⟩
  rw [hcmd]
  exact (planLoop_benign w pkgs).2

/-- C7 witness: the classification theorem applied at a concrete world
where the requested name is in neither source. -/
theorem c7_witness :
    (classify_pkg wAB "c").2 = Except.error (Err.notFound "c") ∧
    (∀ e ∈ (cmd_sync wAB ["c"] false []).1, isInstallEv e = false) := by
  have h := c7_classify_order wAB ["c"] "c" false [] (by decide)
    (by decide) (by decide) (by decide)
  exact ⟨h.2.1, h.2.2.2⟩

/-- C1 counterexample: with request order ["a" (source-build), "b" (binary
repo)], the executed install/build actions are for "b" and then "a" — the
i-th action does not correspond to the i-th requested name in a mixed
batch, because all repo names are installed first in one batched call and
the source-build names only afterwards. -/
theorem c1_counterexample :
    execNames (cmd_sync wAB ["a", "b"] false []).1 = ["b", "a"] ∧
    execNames (cmd_sync wAB ["a", "b"] false []).1 ≠ ["a", "b"] := by
  decide

/-- C1 (amended): in the Executing phase of a confirmed mixed sync
invocation that completes successfully, the executed install/build actions
cover first exactly the repo-classified names in one batched install
(preserving their relative request order) and then the source-build names
one by one (preserving their relative request order); the full executed
name sequence is `repos ++ aurs`, a permutation of the requested names. -/
theorem c1_exec_order (w : SyncWorld) (pkgs : List String) (force : Bool)
    (fs : List String) (evs : List Ev) (repos aurs : List String)
    (plan : List PlanItem)
    (hplan : planLoop w pkgs = (evs, Except.ok (repos, aurs, plan)))
    (haurs : aurs ≠ [])
    (hconf : prompt_yes_no w.confirm_input = true)
    (hok : (cmd_sync w pkgs force fs).2 = Except.ok ()) :
    execNames (cmd_sync w pkgs force fs).1 = repos ++ aurs ∧
    repos = pkgs.filter (fun q => w.pacman_si_ok q) ∧
    aurs = pkgs.filter (fun q => !(w.pacman_si_ok q)) ∧
    (repos ++ aurs).Perm pkgs := by
  obtain ⟨hrs, has⟩ := planLoop_filters w pkgs evs repos aurs plan hplan
  have hperm : (repos ++ aurs).Perm pkgs := by
    rw [hrs, has]
    exact List.filter_append_perm _ pkgs
  have hpkgs : pkgs.isEmpty = false := by
    cases pkgs with
    | nil =>
      exfalso
      have hnil : planLoop w [] = ([], Except.ok ([], [], [])) := rfl
      rw [hnil] at hplan
      simp at hplan
      exact haurs hplan.2.2.1
    | cons a as3 => rfl
  have haursE : aurs.isEmpty = false := by
    simp [haurs]
  have hevs : execNames evs = [] := by
    have hb := (planLoop_benign w pkgs).1
    rw [hplan] at hb
    exact hb
  refine ⟨?_, hrs, has, hperm⟩
  by_cases hre : repos.isEmpty = true
  · have hrepos : repos = [] := by
      simpa [List.isEmpty_iff] using hre
    have hcmd : cmd_sync w pkgs force fs
        = (evs ++ [Ev.promptConfirm] ++ (execAur w force aurs fs).1,
           (execAur w force aurs fs).2.2) := by
      unfold cmd_sync
      rw [hplan]
      simp [hpkgs, haursE, hre, hconf]
    rw [hcmd] at hok ⊢
    have hexec := execAur_execNames w force aurs fs hok
    rw [execNames_append, execNames_append, hevs, hexec, hrepos]
    rfl
  · cases hR : (run_command_printing_abort_ok w.repo_install_status).2 with
    | error e =>
      exfalso
      have hcmd : (cmd_sync w pkgs force fs).2 = Except.error e := by
        unfold cmd_sync
        rw [hplan]
        simp [hpkgs, haursE, hre, hconf, pacman_install_repo, hR]
      rw [hcmd] at hok
      cases hok
    | ok u =>
      have hcmd : cmd_sync w pkgs force fs
          = (evs ++ [Ev.promptConfirm] ++ [Ev.installRepo repos]
              ++ (execAur w force aurs fs).1,
             (execAur w force aurs fs).2.2) := by
        unfold cmd_sync
        rw [hplan]
        simp [hpkgs, haursE, hre, hconf, pacman_install_repo, hR]
      rw [hcmd] at hok ⊢
      have hexec := execAur_execNames w force aurs fs hok
      rw [execNames_append, execNames_append, execNames_append, hevs, hexec]
      simp [execNames_cons, execNames_nil, evActionNames]

/-- C1 witness: the amended execution-order theorem applied at the concrete
mixed batch ["a" (source-build), "b" (binary repo)]. -/
theorem c1_witness :
    execNames (cmd_sync wAB ["a", "b"] false []).1 = ["b"] ++ ["a"] := by
  have h := c1_exec_order wAB ["a", "b"] false []
    [Ev.repoProbe "a", Ev.aurLookup "a", Ev.installedProbe "a",
     Ev.repoProbe "b", Ev.installedProbe "b"]
    ["b"] ["a"]
    [{ name := "a", kind := .aur, installed := false },
     { name := "b", kind := .repo, installed := false }]
    (by decide) (by decide) (by decide) (by decide)
  exact h.1

end Yaorust
